import Mathlib

/-! Verification development for the token verification subsystem of the
firebase admin SDK: the token codec (base64url and the canonical JSON
forms produced by the serializer), the claims checks, the signature check
dispatch, and the self-refreshing key cache.  Rust strings are modelled as
lists of UTF-8 bytes (List Nat), instants as integers or naturals, and
fallible operations as Option or Except. -/

namespace Fir

/-- Bytes of a Rust string split on the dot character (byte 46), matching
the semantics of str split in Rust: the empty string yields one empty
segment, and a trailing dot yields a trailing empty segment. -/
def splitOnDot : List Nat → List (List Nat)
  | [] => [[]]
  | b :: rest =>
    if b = 46 then [] :: splitOnDot rest
    else
      match splitOnDot rest with
      | [] => [[b]]
      | s :: ss => (b :: s) :: ss

/-- The base64url alphabet of the URL_SAFE_NO_PAD engine: sextet to ASCII
byte. -/
def b64Chr (s : Nat) : Nat :=
  if s < 26 then 65 + s
  else if s < 52 then 71 + s
  else if s < 62 then s - 4
  else if s = 62 then 45
  else 95

/-- ASCII byte back to sextet; none for bytes outside the url-safe
alphabet (in particular the dot, byte 46, and the pad byte 61). -/
def b64Val (b : Nat) : Option Nat :=
  if 65 ≤ b ∧ b ≤ 90 then some (b - 65)
  else if 97 ≤ b ∧ b ≤ 122 then some (b - 71)
  else if 48 ≤ b ∧ b ≤ 57 then some (b + 4)
  else if b = 45 then some 62
  else if b = 95 then some 63
  else none

/-- base64url encoding without padding, three input bytes to four output
bytes, with the standard two- and three-byte tails. -/
def b64Encode : List Nat → List Nat
  | [] => []
  | [b1] => [b64Chr (b1 / 4), b64Chr (b1 % 4 * 16)]
  | [b1, b2] => [b64Chr (b1 / 4), b64Chr (b1 % 4 * 16 + b2 / 16), b64Chr (b2 % 16 * 4)]
  | b1 :: b2 :: b3 :: rest =>
      b64Chr (b1 / 4) :: b64Chr (b1 % 4 * 16 + b2 / 16) ::
        b64Chr (b2 % 16 * 4 + b3 / 64) :: b64Chr (b3 % 64) :: b64Encode rest

/-- base64url decoding without padding.  A tail of one byte is rejected,
and nonzero trailing bits are rejected, as in the URL_SAFE_NO_PAD engine
with its default configuration. -/
def b64Decode : List Nat → Option (List Nat)
  | [] => some []
  | [_] => none
  | [c1, c2] => do
      let s1 ← b64Val c1
      let s2 ← b64Val c2
      if s2 % 16 = 0 then some [s1 * 4 + s2 / 16] else none
  | [c1, c2, c3] => do
      let s1 ← b64Val c1
      let s2 ← b64Val c2
      let s3 ← b64Val c3
      if s3 % 4 = 0 then some [s1 * 4 + s2 / 16, s2 % 16 * 16 + s3 / 4] else none
  | c1 :: c2 :: c3 :: c4 :: rest => do
      let s1 ← b64Val c1
      let s2 ← b64Val c2
      let s3 ← b64Val c3
      let s4 ← b64Val c4
      let bs ← b64Decode rest
      some ((s1 * 4 + s2 / 16) :: (s2 % 16 * 16 + s3 / 4) :: (s3 % 4 * 64 + s4) :: bs)

/-- Lower-case hex digit byte for a value below 16, as the serde escape
table writes it. -/
def hexDig (d : Nat) : Nat := if d < 10 then 48 + d else 87 + d

/-- Inverse of the lower-case hex digit table. -/
def unhex (b : Nat) : Option Nat :=
  if 48 ≤ b ∧ b ≤ 57 then some (b - 48)
  else if 97 ≤ b ∧ b ≤ 102 then some (b - 87)
  else none

/-- JSON string escaping at the byte level, exactly as the serde escape
table: quote and backslash get a two-byte escape, the five short control
escapes are used where they exist, the remaining control bytes become a
six-byte unicode escape, and every other byte is passed through. -/
def escapeByte (b : Nat) : List Nat :=
  if b = 34 then [92, 34]
  else if b = 92 then [92, 92]
  else if b = 8 then [92, 98]
  else if b = 9 then [92, 116]
  else if b = 10 then [92, 110]
  else if b = 12 then [92, 102]
  else if b = 13 then [92, 114]
  else if b < 32 then [92, 117, 48, 48, hexDig (b / 16), hexDig (b % 16)]
  else [b]

/-- Escaped body of a JSON string. -/
def escBytes (s : List Nat) : List Nat := (s.map escapeByte).flatten

/-- A complete JSON string token: quote, escaped body, quote. -/
def jStr (s : List Nat) : List Nat := 34 :: escBytes s ++ [34]

/-- Decodes one escape sequence, given the input just after a backslash:
the seven short escapes and the canonical six-byte unicode escape for a
control byte.  Returns the decoded byte and the remaining input. -/
def escHead : List Nat → Option (Nat × List Nat)
  | 34 :: rest => some (34, rest)
  | 92 :: rest => some (92, rest)
  | 98 :: rest => some (8, rest)
  | 116 :: rest => some (9, rest)
  | 110 :: rest => some (10, rest)
  | 102 :: rest => some (12, rest)
  | 114 :: rest => some (13, rest)
  | 117 :: rest =>
    (match rest with
     | 48 :: 48 :: h1 :: h2 :: rest2 =>
       (match unhex h1, unhex h2 with
        | some d1, some d2 =>
          if d1 * 16 + d2 < 32 then some (d1 * 16 + d2, rest2) else none
        | _, _ => none)
     | _ => none)
  | _ => none

/-- Fuel-indexed reader for the body of a JSON string up to its closing
quote, undoing the canonical escapes; the fuel only makes the recursion
structural and is irrelevant once it is at least the input length.  This
is the string fragment of the deserializer, restricted to the escapes
the canonical serializer emits. -/
def unescGo : Nat → List Nat → Option (List Nat × List Nat)
  | 0, _ => none
  | fuel + 1, bs =>
    match bs with
    | [] => none
    | b :: rest =>
      if b = 34 then some ([], rest)
      else if b = 92 then
        match escHead rest with
        | some (c, rest2) => (unescGo fuel rest2).map fun p => (c :: p.1, p.2)
        | none => none
      else if b < 32 then none
      else (unescGo fuel rest).map fun p => (b :: p.1, p.2)

/-- The string body reader with its fuel fixed to the input length,
which is always sufficient. -/
def unescapeStr (bs : List Nat) : Option (List Nat × List Nat) :=
  unescGo bs.length bs

/-- Fuel-indexed digit writer; the fuel only serves to make the
recursion structural, and is irrelevant once it is at least the
number. -/
def natToDecGo : Nat → Nat → List Nat
  | 0, n => [48 + n % 10]
  | fuel + 1, n =>
    if n < 10 then [48 + n] else natToDecGo fuel (n / 10) ++ [48 + n % 10]

/-- Decimal digit bytes of a natural number, most significant first. -/
def natToDec (n : Nat) : List Nat := natToDecGo n n

/-- Decimal digits of a signed integer, with a leading minus byte for
negative values, as serde writes an i64. -/
def intToDec (i : Int) : List Nat :=
  if i < 0 then 45 :: natToDec (-i).toNat else natToDec i.toNat

/-- Value of a list of decimal digit bytes. -/
def decVal (ds : List Nat) : Nat := ds.foldl (fun a d => a * 10 + (d - 48)) 0

/-- Byte predicate for an ASCII decimal digit. -/
def isDig (b : Nat) : Bool := decide (48 ≤ b ∧ b ≤ 57)

/-- Reads a nonempty run of decimal digits and returns its value with the
rest of the input. -/
def parseDec (bs : List Nat) : Option (Nat × List Nat) :=
  let ds := bs.takeWhile isDig
  if ds = [] then none else some (decVal ds, bs.dropWhile isDig)

/-- Reads an optionally negated decimal integer. -/
def parseInt (bs : List Nat) : Option (Int × List Nat) :=
  if bs.head? = some 45 then (parseDec bs.tail).map fun p => (-(p.1 : Int), p.2)
  else (parseDec bs).map fun p => ((p.1 : Int), p.2)

/-- Strips an expected literal byte sequence, returning the rest. -/
def stripPre : List Nat → List Nat → Option (List Nat)
  | [], bs => some bs
  | _ :: _, [] => none
  | p :: ps, b :: bs => if p = b then stripPre ps bs else none

/-- The algorithm enumeration of the token header, from jwt-mod, with the
serde rename of the first variant to a lowercase word. -/
inductive JWTAlgorithm where
  | NONE
  | HS256
  | HS384
  | HS512
  | RS256
  | RS384
  | RS512
  | ES256
  | ES384
  | ES512
deriving DecidableEq

/-- Serialized name bytes of each algorithm variant. -/
def algName : JWTAlgorithm → List Nat
  | .NONE => [110, 111, 110, 101]
  | .HS256 => [72, 83, 50, 53, 54]
  | .HS384 => [72, 83, 51, 56, 52]
  | .HS512 => [72, 83, 53, 49, 50]
  | .RS256 => [82, 83, 50, 53, 54]
  | .RS384 => [82, 83, 51, 56, 52]
  | .RS512 => [82, 83, 53, 49, 50]
  | .ES256 => [69, 83, 50, 53, 54]
  | .ES384 => [69, 83, 51, 56, 52]
  | .ES512 => [69, 83, 53, 49, 50]

/-- Token header shape: algorithm and optional key id, from jwt-mod. -/
structure TokenHeader where
  alg : JWTAlgorithm
  kid : Option (List Nat)
deriving DecidableEq

/-- Critical claim set of a token, from jwt-mod: the three instants are
unix timestamps, the three strings are byte strings. -/
structure TokenClaims where
  exp : Int
  iat : Int
  aud : List Nat
  iss : List Nat
  sub : List Nat
  auth_time : Int
deriving DecidableEq

/-- JSON values occurring in the canonical claim payloads. -/
inductive JValue where
  | num (i : Int)
  | str (s : List Nat)
deriving DecidableEq

/-- Canonical serde output for the token header: two fields in declared
order, the algorithm as a quoted name, the missing key id as null. -/
def serializeHeader (h : TokenHeader) : List Nat :=
  [123, 34, 97, 108, 103, 34, 58, 34] ++ algName h.alg
    ++ [34, 44, 34, 107, 105, 100, 34, 58]
    ++ (match h.kid with
        | none => [110, 117, 108, 108]
        | some s => jStr s)
    ++ [125]

/-- Canonical serde output for the claims: the six declared fields in
order, timestamps as bare integers, strings as JSON strings. -/
def serializeClaims (c : TokenClaims) : List Nat :=
  [123, 34, 101, 120, 112, 34, 58] ++ intToDec c.exp
    ++ [44, 34, 105, 97, 116, 34, 58] ++ intToDec c.iat
    ++ [44, 34, 97, 117, 100, 34, 58] ++ jStr c.aud
    ++ [44, 34, 105, 115, 115, 34, 58] ++ jStr c.iss
    ++ [44, 34, 115, 117, 98, 34, 58] ++ jStr c.sub
    ++ [44, 34, 97, 117, 116, 104, 95, 116, 105, 109, 101, 34, 58] ++ intToDec c.auth_time
    ++ [125]

/-- Tries the quoted algorithm names in turn. -/
def tryAlgs : List JWTAlgorithm → List Nat → Option (JWTAlgorithm × List Nat)
  | [], _ => none
  | a :: cs, bs =>
    match stripPre (algName a ++ [34]) bs with
    | some r => some (a, r)
    | none => tryAlgs cs bs

/-- All algorithm variants, in declaration order. -/
def allAlgs : List JWTAlgorithm :=
  [.NONE, .HS256, .HS384, .HS512, .RS256, .RS384, .RS512, .ES256, .ES384, .ES512]

/-- Reads a quoted algorithm name (the opening quote has already been
consumed by the surrounding literal). -/
def parseAlg (bs : List Nat) : Option (JWTAlgorithm × List Nat) := tryAlgs allAlgs bs

/-- Reads the key id position: either the null literal or a JSON
string. -/
def parseKid (bs : List Nat) : Option (Option (List Nat) × List Nat) :=
  match stripPre [110, 117, 108, 108] bs with
  | some r => some (none, r)
  | none =>
    match bs with
    | 34 :: rest => (unescapeStr rest).map fun p => (some p.1, p.2)
    | _ => none

/-- Deserializer for the token header, on the canonical serialization
domain: every input it accepts is accepted by the serde deserializer with
the same result. -/
def parseHeader (bs : List Nat) : Option TokenHeader := do
  let r ← stripPre [123, 34, 97, 108, 103, 34, 58, 34] bs
  let (alg, r) ← parseAlg r
  let r ← stripPre [44, 34, 107, 105, 100, 34, 58] r
  let (kid, r) ← parseKid r
  let r ← stripPre [125] r
  if r = [] then some ⟨alg, kid⟩ else none

/-- Reads a JSON string token including its opening quote. -/
def parseJStr (bs : List Nat) : Option (List Nat × List Nat) :=
  match bs with
  | 34 :: rest => unescapeStr rest
  | _ => none

/-- Deserializer for the critical claims, on the canonical serialization
domain: every input it accepts is accepted by the serde deserializer with
the same result. -/
def parseClaims (bs : List Nat) : Option TokenClaims := do
  let r ← stripPre [123, 34, 101, 120, 112, 34, 58] bs
  let (exp, r) ← parseInt r
  let r ← stripPre [44, 34, 105, 97, 116, 34, 58] r
  let (iat, r) ← parseInt r
  let r ← stripPre [44, 34, 97, 117, 100, 34, 58] r
  let (aud, r) ← parseJStr r
  let r ← stripPre [44, 34, 105, 115, 115, 34, 58] r
  let (iss, r) ← parseJStr r
  let r ← stripPre [44, 34, 115, 117, 98, 34, 58] r
  let (sub, r) ← parseJStr r
  let r ← stripPre [44, 34, 97, 117, 116, 104, 95, 116, 105, 109, 101, 34, 58] r
  let (auth_time, r) ← parseInt r
  let r ← stripPre [125] r
  if r = [] then some ⟨exp, iat, aud, iss, sub, auth_time⟩ else none

/-- The open claim map obtained by reparsing a canonical claims payload
into a key-ordered map, as the second from-slice call builds it: for the
canonical six-field payload this is exactly the six entries in BTreeMap
key order. -/
def allClaimsOf (c : TokenClaims) : List (List Nat × JValue) :=
  [([97, 117, 100], .str c.aud),
   ([97, 117, 116, 104, 95, 116, 105, 109, 101], .num c.auth_time),
   ([101, 120, 112], .num c.exp),
   ([105, 97, 116], .num c.iat),
   ([105, 115, 115], .str c.iss),
   ([115, 117, 98], .str c.sub)]

/-- Decode errors of the token codec, from jwt-error. -/
inductive JWTError where
  | FailedToParse
  | FailedToEncode
  | MissingHeader
  | MissingPayload
  | MissingSignature
deriving DecidableEq

/-- A decoded token, from jwt-mod: header, critical claims, the open
claim map, the verbatim signing input (header segment, dot, payload
segment) and the raw signature bytes. -/
structure JWToken where
  header : TokenHeader
  critical_claims : TokenClaims
  all_claims : List (List Nat × JValue)
  payload : List Nat
  signature : List Nat
deriving DecidableEq

/-- JWToken.from_encoded: split on dots, base64url-decode and parse the
first segment as the header, the second as the claims (twice: critical
shape and open map), base64url-decode the third as the signature, and
keep the first two segment texts verbatim as the signing input.  Segments
after the third are never requested from the iterator. -/
def from_encoded (encoded : List Nat) : Except JWTError JWToken :=
  match (splitOnDot encoded)[0]? with
  | none => .error .MissingHeader
  | some header_slice =>
    match b64Decode header_slice with
    | none => .error .FailedToParse
    | some hbytes =>
      match parseHeader hbytes with
      | none => .error .FailedToParse
      | some header =>
        match (splitOnDot encoded)[1]? with
        | none => .error .MissingHeader
        | some claims_slice =>
          match b64Decode claims_slice with
          | none => .error .FailedToParse
          | some cbytes =>
            match parseClaims cbytes with
            | none => .error .FailedToParse
            | some cc =>
              match (splitOnDot encoded)[2]? with
              | none => .error .MissingSignature
              | some sig_slice =>
                match b64Decode sig_slice with
                | none => .error .FailedToParse
                | some signature =>
                  .ok { header := header
                        critical_claims := cc
                        all_claims := allClaimsOf cc
                        payload := header_slice ++ 46 :: claims_slice
                        signature := signature }

/-- encode_jwt, specialized to the header and claims shapes: base64url
encode each canonical serialization, obtain the third segment from the
signer, and join the three segments with dots. -/
def encode_jwt (header : TokenHeader) (claims : TokenClaims)
    (signer : List Nat → List Nat → Except JWTError (List Nat)) :
    Except JWTError (List Nat) :=
  let encoded_header := b64Encode (serializeHeader header)
  let encoded_payload := b64Encode (serializeClaims claims)
  match signer encoded_header encoded_payload with
  | .error e => .error e
  | .ok encoded_signature =>
    .ok (encoded_header ++ 46 :: encoded_payload ++ 46 :: encoded_signature)

/-- Verification errors, from token-error. -/
inductive TokenVerificationError where
  | FailedParsing
  | FailedGettingKeys
  | InvalidSignatureKey
  | InvalidSignature
  | InvalidSignatureAlgorithm
  | Expired
  | IssuedInFuture
  | InvalidAudience
  | InvalidIssuer
  | MissingSubject
deriving DecidableEq

/-- The cache error type, from cache-error: a single unit-like error. -/
inductive CacheError where
  | cacheError
deriving DecidableEq

/-- Immutable configuration of the live verifier: expected audience and
expected issuer. -/
structure LiveVerifier where
  project_id : List Nat
  issuer : List Nat
deriving DecidableEq

/-- LiveTokenVerifier.verify_claims at instant now (seconds): the if
chain from token-mod, with the ten second forward tolerance on iat and
none on auth_time. -/
def verify_claims (v : LiveVerifier) (t : JWToken) (now : Int) :
    Except TokenVerificationError Unit :=
  if t.critical_claims.exp ≤ now then .error .Expired
  else if t.critical_claims.iat > now + 10 then .error .IssuedInFuture
  else if t.critical_claims.auth_time > now then .error .IssuedInFuture
  else if t.critical_claims.aud ≠ v.project_id then .error .InvalidAudience
  else if t.critical_claims.iss ≠ v.issuer then .error .InvalidIssuer
  else if t.critical_claims.sub = [] then .error .MissingSubject
  else .ok ()

/-- LiveTokenVerifier.verify_header: only RS256 passes. -/
def verify_header (t : JWToken) : Except TokenVerificationError Unit :=
  match t.header.alg with
  | .RS256 => .ok ()
  | _ => .error .InvalidSignatureAlgorithm

/-- Lookup in the key map, modelling BTreeMap get on an association
list. -/
def lookupKey {K : Type} : List (List Nat × K) → List Nat → Option K
  | [], _ => none
  | (k, v) :: rest, kid => if k = kid then some v else lookupKey rest kid

/-- LiveTokenVerifier.verify_signature, with the key cache call modelled
by its result and the openssl engine by a function from key, signing
input and signature to a fallible boolean: cache failure maps to
FailedGettingKeys, a header without key id is mapped by ok-or to
FailedGettingKeys as well, a missing map entry to InvalidSignatureKey,
and an engine error or false verdict to InvalidSignature. -/
def verify_signature {K : Type}
    (keys : Except CacheError (List (List Nat × K)))
    (engine : K → List Nat → List Nat → Except Unit Bool)
    (t : JWToken) : Except TokenVerificationError Unit :=
  match keys with
  | .error _ => .error .FailedGettingKeys
  | .ok m =>
    match t.header.kid with
    | none => .error .FailedGettingKeys
    | some key_id =>
      match lookupKey m key_id with
      | none => .error .InvalidSignatureKey
      | some key =>
        match engine key t.payload t.signature with
        | .error _ => .error .InvalidSignature
        | .ok false => .error .InvalidSignature
        | .ok true => .ok ()

/-- LiveTokenVerifier.verify: header check, then claims check, then
signature check, each early-returning on error. -/
def verify {K : Type} (v : LiveVerifier)
    (keys : Except CacheError (List (List Nat × K)))
    (engine : K → List Nat → List Nat → Except Unit Bool)
    (t : JWToken) (now : Int) : Except TokenVerificationError Unit :=
  match verify_header t with
  | .error e => .error e
  | .ok _ =>
    match verify_claims v t now with
    | .error e => .error e
    | .ok _ => verify_signature keys engine t

/-- EmulatedTokenVerifier.verify_token: decode, mapping any decode error
to FailedParsing, and return the token with no further checks. -/
def emulatorVerifyToken (id_token : List Nat) :
    Except TokenVerificationError JWToken :=
  match from_encoded id_token with
  | .error _ => .error .FailedParsing
  | .ok t => .ok t

/-- A cache entry, from cache-mod: absolute expiry instant and
content. -/
structure CacheEntry (C : Type) where
  expires_at : Nat
  content : C
deriving DecidableEq

/-- Cache.is_expired at instant now. -/
def is_expired {C : Type} (e : CacheEntry C) (now : Nat) : Bool :=
  decide (e.expires_at ≤ now)

/-- A fetched resource: body bytes and max age, from cache-mod. -/
structure Resource where
  data : List Nat
  max_age : Nat
deriving DecidableEq

/-- HttpCache.get for a single caller, as explicit state passing: the
first snapshot happens at now1, the re-read under the refresh mutex at
now2, and the update stamps nowU plus max age.  The result triple is the
returned value, the entry after the call, and the number of fetches
performed. -/
def cacheGet {C : Type} (parse : List Nat → Option C)
    (fetch : Except Unit Resource) (e : CacheEntry C)
    (now1 now2 nowU : Nat) :
    Except CacheError C × CacheEntry C × Nat :=
  if is_expired e now1 then
    if ¬ is_expired e now2 then (.ok e.content, e, 0)
    else
      match fetch with
      | .error _ => (.error .cacheError, e, 1)
      | .ok res =>
        match parse res.data with
        | none => (.error .cacheError, e, 1)
        | some content => (.ok content, ⟨nowU + res.max_age, content⟩, 1)
  else (.ok e.content, e, 0)

/-- Repeated sequential get calls, threading the entry and summing the
fetches. -/
def cacheGetMany {C : Type} (parse : List Nat → Option C)
    (fetch : Except Unit Resource) :
    List (Nat × Nat × Nat) → CacheEntry C →
    List (Except CacheError C) × CacheEntry C × Nat
  | [], e => ([], e, 0)
  | (now1, now2, nowU) :: ts, e =>
    let r := cacheGet parse fetch e now1 now2 nowU
    let rest := cacheGetMany parse fetch ts r.2.1
    (r.1 :: rest.1, rest.2.1, r.2.2 + rest.2.2)

/-- Program locations of one task running HttpCache.get in the
interleaving model: before the first snapshot, waiting on the refresh
mutex, holding it before the re-read, holding it about to fetch, and the
two completed outcomes. -/
inductive TaskState (C : Type) where
  | start
  | waiting
  | holding
  | fetching
  | doneOk (c : C)
  | doneErr
deriving DecidableEq

/-- Shared state of the interleaving model: the cache entry guarded by
the rw lock, the owner of the refresh mutex, the number of fetches
performed so far, and the per-task locations. -/
structure SFConfig (C : Type) where
  cache : CacheEntry C
  mutexBy : Option Nat
  fetches : Nat
  tasks : List (TaskState C)
deriving DecidableEq

/-- Environment of a race: the common race instant, the outcome the
fetch capability returns, and the deserializer. -/
structure SFParams (C : Type) where
  now : Nat
  fetchR : Except Unit Resource
  parse : List Nat → Option C

/-- One interleaving step of HttpCache.get: each constructor is one
atomic region of the code between suspension points (the snapshot read,
the mutex acquisition, the re-read, and the fetch with its ensuing write
under the still-held mutex). -/
inductive SFStep {C : Type} (P : SFParams C) : SFConfig C → SFConfig C → Prop where
  | snapFresh (cfg : SFConfig C) (i : Nat)
      (ht : cfg.tasks[i]? = some .start)
      (hf : is_expired cfg.cache P.now = false) :
      SFStep P cfg { cfg with tasks := cfg.tasks.set i (.doneOk cfg.cache.content) }
  | snapExpired (cfg : SFConfig C) (i : Nat)
      (ht : cfg.tasks[i]? = some .start)
      (he : is_expired cfg.cache P.now = true) :
      SFStep P cfg { cfg with tasks := cfg.tasks.set i .waiting }
  | acquire (cfg : SFConfig C) (i : Nat)
      (ht : cfg.tasks[i]? = some .waiting)
      (hm : cfg.mutexBy = none) :
      SFStep P cfg { cfg with mutexBy := some i, tasks := cfg.tasks.set i .holding }
  | recheckFresh (cfg : SFConfig C) (i : Nat)
      (ht : cfg.tasks[i]? = some .holding)
      (hf : is_expired cfg.cache P.now = false) :
      SFStep P cfg
        { cfg with
          mutexBy := none
          tasks := cfg.tasks.set i (.doneOk cfg.cache.content) }
  | recheckExpired (cfg : SFConfig C) (i : Nat)
      (ht : cfg.tasks[i]? = some .holding)
      (he : is_expired cfg.cache P.now = true) :
      SFStep P cfg { cfg with tasks := cfg.tasks.set i .fetching }
  | fetchOk (cfg : SFConfig C) (i : Nat) (res : Resource) (c : C)
      (ht : cfg.tasks[i]? = some .fetching)
      (hr : P.fetchR = .ok res)
      (hp : P.parse res.data = some c) :
      SFStep P cfg
        { cache := ⟨P.now + res.max_age, c⟩
          mutexBy := none
          fetches := cfg.fetches + 1
          tasks := cfg.tasks.set i (.doneOk c) }
  | fetchFailNet (cfg : SFConfig C) (i : Nat)
      (ht : cfg.tasks[i]? = some .fetching)
      (hr : P.fetchR = .error ()) :
      SFStep P cfg
        { cfg with
          mutexBy := none
          fetches := cfg.fetches + 1
          tasks := cfg.tasks.set i .doneErr }
  | fetchFailData (cfg : SFConfig C) (i : Nat) (res : Resource)
      (ht : cfg.tasks[i]? = some .fetching)
      (hr : P.fetchR = .ok res)
      (hp : P.parse res.data = none) :
      SFStep P cfg
        { cfg with
          mutexBy := none
          fetches := cfg.fetches + 1
          tasks := cfg.tasks.set i .doneErr }

/-- Reachability in the interleaving model. -/
def SFReach {C : Type} (P : SFParams C) : SFConfig C → SFConfig C → Prop :=
  Relation.ReflTransGen (SFStep P)

/-- Initial race configuration: n tasks about to call get on a shared
entry, mutex free, no fetch yet. -/
def sfInit {C : Type} (e : CacheEntry C) (n : Nat) : SFConfig C :=
  ⟨e, none, 0, List.replicate n .start⟩

/-- A task that has returned. -/
def taskDone {C : Type} : TaskState C → Bool
  | .doneOk _ => true
  | .doneErr => true
  | _ => false

/-- A task location that owns the refresh mutex. -/
def ownsMutex {C : Type} : TaskState C → Prop
  | .holding => True
  | .fetching => True
  | _ => False

/-- Mutex discipline: a free mutex means no owner location anywhere, and
a held mutex means exactly the recorded task is at an owner location. -/
def MutexOk {C : Type} (cfg : SFConfig C) : Prop :=
  (cfg.mutexBy = none → ∀ s ∈ cfg.tasks, ¬ ownsMutex s) ∧
  (∀ i, cfg.mutexBy = some i →
    (∃ s, cfg.tasks[i]? = some s ∧ ownsMutex s) ∧
    (∀ j s, j ≠ i → cfg.tasks[j]? = some s → ¬ ownsMutex s))

/-- Race invariant before the refresh has happened: the entry is still
the original, nothing fetched, no task finished. -/
def PhaseA {C : Type} (e0 : CacheEntry C) (cfg : SFConfig C) : Prop :=
  cfg.cache = e0 ∧ cfg.fetches = 0 ∧
  ∀ s ∈ cfg.tasks, s = .start ∨ s = .waiting ∨ s = .holding ∨ s = .fetching

/-- Race invariant after the refresh: exactly one fetch happened, the
entry carries the parsed content with the stamped expiry, nobody is
fetching, and every finished task returned the refreshed content. -/
def PhaseB {C : Type} (P : SFParams C) (res : Resource) (c : C)
    (cfg : SFConfig C) : Prop :=
  cfg.cache = ⟨P.now + res.max_age, c⟩ ∧ cfg.fetches = 1 ∧
  ∀ s ∈ cfg.tasks, s = .start ∨ s = .waiting ∨ s = .holding ∨ s = .doneOk c

/-- Full invariant of a successful race. -/
def SFInv {C : Type} (P : SFParams C) (res : Resource) (c : C)
    (e0 : CacheEntry C) (n : Nat) (cfg : SFConfig C) : Prop :=
  cfg.tasks.length = n ∧ MutexOk cfg ∧
  (PhaseA e0 cfg ∨ PhaseB P res c cfg)

/-- Concrete header fixture: RS256 with key id bytes of the digits one
two three. -/
def hdr0 : TokenHeader := ⟨.RS256, some [49, 50, 51]⟩

/-- Concrete claims fixture with small timestamps and one-byte
strings. -/
def clm0 : TokenClaims := ⟨100, 5, [97], [105], [115], 5⟩

/-- Encoded header segment of the fixture. -/
def ehSeg : List Nat := b64Encode (serializeHeader hdr0)

/-- Encoded payload segment of the fixture. -/
def epSeg : List Nat := b64Encode (serializeClaims clm0)

/-- Four dot-separated segments whose first three are well formed; the
fourth segment consists of two bytes of the letter A. -/
def tok4 : List Nat := ehSeg ++ 46 :: epSeg ++ 46 :: 65 :: 65 :: 46 :: [65, 65]

/-- A signer that emits a semicolon, a byte outside the base64url
alphabet. -/
def badSigner : List Nat → List Nat → Except JWTError (List Nat) :=
  fun _ _ => .ok [59]

/-- A signer that emits the base64url encoding of three fixed bytes. -/
def okSigner : List Nat → List Nat → Except JWTError (List Nat) :=
  fun _ _ => .ok (b64Encode [1, 2, 3])

/-- Two dot-separated segments, the bytes of abc.def. -/
def tok2 : List Nat := [97, 98, 99, 46, 100, 101, 102]

/-- A decoded token fixture whose header carries no key id. -/
def tokNoKid : JWToken := ⟨⟨.RS256, none⟩, clm0, allClaimsOf clm0, [], []⟩

/-- A decoded token fixture with a non-production algorithm. -/
def tokHSAlg : JWToken := ⟨⟨.HS256, some [49]⟩, clm0, allClaimsOf clm0, [], []⟩

/-- A successful key cache result with an empty map, over Nat keys. -/
def keys0 : Except CacheError (List (List Nat × Nat)) := .ok []

/-- A failed key cache result. -/
def keysErr : Except CacheError (List (List Nat × Nat)) := .error .cacheError

/-- An engine that accepts every signature. -/
def engTrue : Nat → List Nat → List Nat → Except Unit Bool := fun _ _ _ => .ok true

/-- An engine that rejects every signature. -/
def engFalse : Nat → List Nat → List Nat → Except Unit Bool := fun _ _ _ => .ok false

/-- A verifier configuration matching the claims fixture. -/
def ver0 : LiveVerifier := ⟨[97], [105]⟩

/-- A fresh cache entry fixture over Nat content. -/
def entry0 : CacheEntry Nat := ⟨10, 42⟩

/-- A resource fixture with empty body and five seconds of lifetime. -/
def res0 : Resource := ⟨[], 5⟩

/-- A deserializer stub that always yields seven. -/
def parse7 : List Nat → Option Nat := fun _ => some 7

/-- Race environment fixture: instant zero, successful fetch of res0,
parse7. -/
def sfP1 : SFParams Nat := ⟨0, .ok res0, parse7⟩

/-- An entry that is already expired at instant zero. -/
def sfE0 : CacheEntry Nat := ⟨0, 0⟩

/-- Race environment fixture with a failing fetch. -/
def sfP2 : SFParams Nat := ⟨0, .error (), parse7⟩

/-- Terminal configuration of the failing two-task race: both tasks
errored and two fetches were performed. -/
def sfFinal2 : SFConfig Nat := ⟨sfE0, none, 2, [.doneErr, .doneErr]⟩

theorem b64Val_b64Chr : ∀ s : Nat, s < 64 → b64Val (b64Chr s) = some s := by
  decide

theorem b64Chr_ne_dot : ∀ s : Nat, s < 64 → b64Chr s ≠ 46 := by
  decide

theorem b64Chr_lt : ∀ s : Nat, s < 64 → b64Chr s < 256 := by
  decide

/-- Decoding inverts encoding on genuine byte lists. -/
theorem b64_roundtrip : ∀ bs : List Nat, (∀ b ∈ bs, b < 256) →
    b64Decode (b64Encode bs) = some bs := by
  intro bs
  induction bs using b64Encode.induct with
  | case1 => intro _; rfl
  | case2 b1 =>
    intro h
    have hb1 : b1 < 256 := h b1 (by simp)
    rw [b64Encode, b64Decode]
    rw [b64Val_b64Chr _ (by omega), b64Val_b64Chr _ (by omega)]
    simp only [Option.bind_eq_bind, Option.some_bind]
    have h16 : b1 % 4 * 16 % 16 = 0 := by omega
    rw [if_pos h16]
    congr 2
    omega
  | case3 b1 b2 =>
    intro h
    have hb1 : b1 < 256 := h b1 (by simp)
    have hb2 : b2 < 256 := h b2 (by simp)
    rw [b64Encode, b64Decode]
    rw [b64Val_b64Chr _ (by omega), b64Val_b64Chr _ (by omega),
      b64Val_b64Chr _ (by omega)]
    simp only [Option.bind_eq_bind, Option.some_bind]
    have h4 : b2 % 16 * 4 % 4 = 0 := by omega
    rw [if_pos h4]
    congr 3
    · omega
    · omega
  | case4 b1 b2 b3 rest ih =>
    intro h
    have hb1 : b1 < 256 := h b1 (by simp)
    have hb2 : b2 < 256 := h b2 (by simp)
    have hb3 : b3 < 256 := h b3 (by simp)
    have hrest : ∀ b ∈ rest, b < 256 := by
      intro b hb; exact h b (by simp [hb])
    rw [b64Encode, b64Decode]
    rw [b64Val_b64Chr _ (by omega), b64Val_b64Chr _ (by omega),
      b64Val_b64Chr _ (by omega), b64Val_b64Chr _ (by omega)]
    simp only [Option.bind_eq_bind, Option.some_bind]
    rw [ih hrest]
    simp only [Option.bind_eq_bind, Option.some_bind]
    congr 4
    · omega
    · omega
    · omega

/-- Every byte an encoder emits is in the alphabet, hence below 256 and
distinct from the dot. -/
theorem b64Encode_mem (bs : List Nat) (hb : ∀ b ∈ bs, b < 256) :
    ∀ x ∈ b64Encode bs, x < 256 ∧ x ≠ 46 := by
  induction bs using b64Encode.induct with
  | case1 => simp [b64Encode]
  | case2 b1 =>
    have hb1 : b1 < 256 := hb b1 (by simp)
    rw [b64Encode]
    simp only [List.mem_cons, List.not_mem_nil, or_false]
    rintro x (rfl | rfl) <;>
      exact ⟨b64Chr_lt _ (by omega), b64Chr_ne_dot _ (by omega)⟩
  | case3 b1 b2 =>
    have hb1 : b1 < 256 := hb b1 (by simp)
    have hb2 : b2 < 256 := hb b2 (by simp)
    rw [b64Encode]
    simp only [List.mem_cons, List.not_mem_nil, or_false]
    rintro x (rfl | rfl | rfl) <;>
      exact ⟨b64Chr_lt _ (by omega), b64Chr_ne_dot _ (by omega)⟩
  | case4 b1 b2 b3 rest ih =>
    have hb1 : b1 < 256 := hb b1 (by simp)
    have hb2 : b2 < 256 := hb b2 (by simp)
    have hb3 : b3 < 256 := hb b3 (by simp)
    have hrest : ∀ b ∈ rest, b < 256 := by
      intro b hbm; exact hb b (by simp [hbm])
    rw [b64Encode]
    simp only [List.mem_cons]
    rintro x (rfl | rfl | rfl | rfl | hx)
    · exact ⟨b64Chr_lt _ (by omega), b64Chr_ne_dot _ (by omega)⟩
    · exact ⟨b64Chr_lt _ (by omega), b64Chr_ne_dot _ (by omega)⟩
    · exact ⟨b64Chr_lt _ (by omega), b64Chr_ne_dot _ (by omega)⟩
    · exact ⟨b64Chr_lt _ (by omega), b64Chr_ne_dot _ (by omega)⟩
    · exact ih hrest x hx

/-- Splitting a dot-free segment followed by a dot peels off that
segment. -/
theorem splitOnDot_append (xs rest : List Nat) (hx : ∀ b ∈ xs, b ≠ 46) :
    splitOnDot (xs ++ 46 :: rest) = xs :: splitOnDot rest := by
  induction xs with
  | nil => simp [splitOnDot]
  | cons b xs ih =>
    have hb : b ≠ 46 := hx b (by simp)
    have hxs : ∀ x ∈ xs, x ≠ 46 := fun x hxm => hx x (by simp [hxm])
    show splitOnDot (b :: (xs ++ 46 :: rest)) = (b :: xs) :: splitOnDot rest
    simp only [splitOnDot, if_neg hb, ih hxs]


/-- Splitting a dot-free list yields that single segment. -/
theorem splitOnDot_single (xs : List Nat) (hx : ∀ b ∈ xs, b ≠ 46) :
    splitOnDot xs = [xs] := by
  induction xs with
  | nil => rfl
  | cons b xs ih =>
    have hb : b ≠ 46 := hx b (by simp)
    have hxs : ∀ x ∈ xs, x ≠ 46 := fun x hxm => hx x (by simp [hxm])
    simp only [splitOnDot, if_neg hb, ih hxs]


/-- Claim C1: for every decoded token and instant, the claims check
fails with Expired exactly when exp is not after now; otherwise with
IssuedInFuture exactly when iat exceeds now plus the ten second
tolerance or, failing that, auth time exceeds now with no tolerance;
otherwise with InvalidAudience on an audience mismatch; otherwise with
InvalidIssuer on an issuer mismatch; otherwise with MissingSubject on an
empty subject; otherwise it succeeds.  The characterization by exact
preconditions shows each failure short-circuits the later checks. -/
theorem claim_C1_claims_check (v : LiveVerifier) (t : JWToken) (now : Int) :
    (verify_claims v t now = .error .Expired ↔ t.critical_claims.exp ≤ now) ∧
    (verify_claims v t now = .error .IssuedInFuture ↔
      (now < t.critical_claims.exp ∧
        (now + 10 < t.critical_claims.iat ∨
          (t.critical_claims.iat ≤ now + 10 ∧ now < t.critical_claims.auth_time)))) ∧
    (verify_claims v t now = .error .InvalidAudience ↔
      (now < t.critical_claims.exp ∧ t.critical_claims.iat ≤ now + 10 ∧
        t.critical_claims.auth_time ≤ now ∧ t.critical_claims.aud ≠ v.project_id)) ∧
    (verify_claims v t now = .error .InvalidIssuer ↔
      (now < t.critical_claims.exp ∧ t.critical_claims.iat ≤ now + 10 ∧
        t.critical_claims.auth_time ≤ now ∧ t.critical_claims.aud = v.project_id ∧
        t.critical_claims.iss ≠ v.issuer)) ∧
    (verify_claims v t now = .error .MissingSubject ↔
      (now < t.critical_claims.exp ∧ t.critical_claims.iat ≤ now + 10 ∧
        t.critical_claims.auth_time ≤ now ∧ t.critical_claims.aud = v.project_id ∧
        t.critical_claims.iss = v.issuer ∧ t.critical_claims.sub = [])) ∧
    (verify_claims v t now = .ok () ↔
      (now < t.critical_claims.exp ∧ t.critical_claims.iat ≤ now + 10 ∧
        t.critical_claims.auth_time ≤ now ∧ t.critical_claims.aud = v.project_id ∧
        t.critical_claims.iss = v.issuer ∧ t.critical_claims.sub ≠ [])) := by
  unfold verify_claims
  split_ifs with h1 h2 h3 h4 h5 h6 <;> simp_all

/-- Claim C5: verify runs the header check, the claims check and the
signature check in that order with short-circuiting: the header check
fails, with InvalidSignatureAlgorithm, exactly on a non RS256 algorithm;
on a header failure the result does not depend on the key cache or the
engine (so neither is consulted); on a claims failure under a good
header the claims error is returned, again independently of cache and
engine; and when header and claims pass, verify is exactly the signature
check. -/
theorem claim_C5_verify_order {K : Type} (v : LiveVerifier)
    (keys keys2 : Except CacheError (List (List Nat × K)))
    (engine engine2 : K → List Nat → List Nat → Except Unit Bool)
    (t : JWToken) (now : Int) :
    (verify_header t = .error .InvalidSignatureAlgorithm ↔ t.header.alg ≠ .RS256) ∧
    (t.header.alg ≠ .RS256 →
      verify v keys engine t now = .error .InvalidSignatureAlgorithm ∧
      verify v keys engine t now = verify v keys2 engine2 t now) ∧
    (∀ e, t.header.alg = .RS256 → verify_claims v t now = .error e →
      verify v keys engine t now = .error e ∧
      verify v keys engine t now = verify v keys2 engine2 t now) ∧
    (t.header.alg = .RS256 → verify_claims v t now = .ok () →
      verify v keys engine t now = verify_signature keys engine t) := by
  have hhdr : ∀ a : JWTAlgorithm, a ≠ .RS256 →
      (verify_header t = .error .InvalidSignatureAlgorithm ∨ True) := fun _ _ => .inr trivial
  refine ⟨?_, ?_, ?_, ?_⟩
  · unfold verify_header
    cases t.header.alg <;> simp
  · intro hne
    have hh : verify_header t = .error .InvalidSignatureAlgorithm := by
      unfold verify_header
      cases halg : t.header.alg <;> simp_all
    constructor <;> simp [verify, hh]
  · intro e ha hc
    have hh : verify_header t = .ok () := by
      unfold verify_header
      rw [ha]
    constructor <;> simp [verify, hh, hc]
  · intro ha hc
    have hh : verify_header t = .ok () := by
      unfold verify_header
      rw [ha]
    simp [verify, hh, hc]

/-- Witness for C5 at a concrete HS256 token: the header failure is
returned and the result ignores which cache and engine are supplied. -/
theorem claim_C5_verify_order_witness :
    verify ver0 keys0 engTrue tokHSAlg 0 = .error .InvalidSignatureAlgorithm ∧
    verify ver0 keys0 engTrue tokHSAlg 0 = verify ver0 keysErr engFalse tokHSAlg 0 :=
  (claim_C5_verify_order ver0 keys0 keysErr engTrue engFalse tokHSAlg 0).2.1
    (by decide)

/-- Case analysis of the signature check: shared characterization
lemma. -/
theorem verify_signature_cases {K : Type}
    (keys : Except CacheError (List (List Nat × K)))
    (engine : K → List Nat → List Nat → Except Unit Bool) (t : JWToken) :
    (verify_signature keys engine t = .error .FailedGettingKeys ↔
      ((∃ e, keys = .error e) ∨ (∃ m, keys = .ok m ∧ t.header.kid = none))) ∧
    (verify_signature keys engine t = .error .InvalidSignatureKey ↔
      (∃ m kid, keys = .ok m ∧ t.header.kid = some kid ∧ lookupKey m kid = none)) ∧
    (verify_signature keys engine t = .error .InvalidSignature ↔
      (∃ m kid key, keys = .ok m ∧ t.header.kid = some kid ∧
        lookupKey m kid = some key ∧
        (engine key t.payload t.signature = .ok false ∨
          engine key t.payload t.signature = .error ()))) ∧
    (verify_signature keys engine t = .ok () ↔
      (∃ m kid key, keys = .ok m ∧ t.header.kid = some kid ∧
        lookupKey m kid = some key ∧
        engine key t.payload t.signature = .ok true)) := by
  unfold verify_signature
  rcases keys with e | m
  · simp
    exact ⟨e, trivial⟩
  · cases hk : t.header.kid with
    | none => simp
    | some kid =>
      cases hl : lookupKey m kid with
      | none => simp [hl]
      | some key =>
        cases he : engine key t.payload t.signature with
        | error u => cases u; simp [hl, he]
        | ok b => cases b <;> simp [hl, he]


/-- Claim C4 as amended: the signature check fails with
FailedGettingKeys exactly when the cache errors or the header carries no
key id; with InvalidSignatureKey exactly when the cache succeeded, the
header has a key id and it is absent from the map; with InvalidSignature
exactly when the key is found and the engine errors or answers false;
and succeeds exactly when the engine answers true. -/
theorem claim_C4_signature_check {K : Type}
    (keys : Except CacheError (List (List Nat × K)))
    (engine : K → List Nat → List Nat → Except Unit Bool) (t : JWToken) :
    (verify_signature keys engine t = .error .FailedGettingKeys ↔
      ((∃ e, keys = .error e) ∨ (∃ m, keys = .ok m ∧ t.header.kid = none))) ∧
    (verify_signature keys engine t = .error .InvalidSignatureKey ↔
      (∃ m kid, keys = .ok m ∧ t.header.kid = some kid ∧ lookupKey m kid = none)) ∧
    (verify_signature keys engine t = .error .InvalidSignature ↔
      (∃ m kid key, keys = .ok m ∧ t.header.kid = some kid ∧
        lookupKey m kid = some key ∧
        (engine key t.payload t.signature = .ok false ∨
          engine key t.payload t.signature = .error ()))) ∧
    (verify_signature keys engine t = .ok () ↔
      (∃ m kid key, keys = .ok m ∧ t.header.kid = some kid ∧
        lookupKey m kid = some key ∧
        engine key t.payload t.signature = .ok true)) :=
  verify_signature_cases keys engine t

/-- Counterexample to C4 as written: with a successfully returned (empty)
key map and a header without key id, the check fails with
FailedGettingKeys even though the cache did not error. -/
theorem claim_C4_signature_check_cex :
    verify_signature keys0 engTrue tokNoKid = .error .FailedGettingKeys ∧
    keys0 = .ok [] := by
  constructor <;> rfl

/-- Witness for C4 at a concrete instance: the no-kid token with a
successful cache hits the FailedGettingKeys case of the
characterization. -/
theorem claim_C4_signature_check_witness :
    verify_signature keys0 engTrue tokNoKid = .error .FailedGettingKeys :=
  (claim_C4_signature_check keys0 engTrue tokNoKid).1.mpr (.inr ⟨[], rfl, rfl⟩)

/-- Claim C10: without a key id in the header the signature check fails
with FailedGettingKeys even on a successful cache, and
InvalidSignatureKey arises only for a key id present in the header but
absent from the map. -/
theorem claim_C10_kid_absent {K : Type}
    (keys : Except CacheError (List (List Nat × K)))
    (engine : K → List Nat → List Nat → Except Unit Bool) (t : JWToken) :
    (∀ m, keys = .ok m → t.header.kid = none →
      verify_signature keys engine t = .error .FailedGettingKeys) ∧
    (verify_signature keys engine t = .error .InvalidSignatureKey →
      ∃ m kid, keys = .ok m ∧ t.header.kid = some kid ∧ lookupKey m kid = none) := by
  constructor
  · intro m hm hk
    subst hm
    unfold verify_signature
    rw [hk]
  · exact (verify_signature_cases keys engine t).2.1.mp

/-- Witness for C10 at the concrete no-kid token and empty key map. -/
theorem claim_C10_kid_absent_witness :
    verify_signature keys0 engTrue tokNoKid = .error .FailedGettingKeys :=
  (claim_C10_kid_absent keys0 engTrue tokNoKid).1 [] rfl rfl

/-- Claim C9: the emulator verifier returns exactly the tokens the codec
decodes, with no further checks, and every failure carries the parsing
error kind. -/
theorem claim_C9_emulator (s : List Nat) :
    (∀ t, emulatorVerifyToken s = .ok t ↔ from_encoded s = .ok t) ∧
    (∀ e, emulatorVerifyToken s = .error e ↔
      ((∃ e0, from_encoded s = .error e0) ∧ e = .FailedParsing)) := by
  unfold emulatorVerifyToken
  cases h : from_encoded s <;> simp
  exact fun e => eq_comm

/-- Witness for C9 at the two-segment fixture: the emulator verifier
fails with the parsing error kind exactly because decoding fails. -/
theorem claim_C9_emulator_witness :
    emulatorVerifyToken tok2 = .error .FailedParsing :=
  ((claim_C9_emulator tok2).2 .FailedParsing).mpr ⟨⟨.FailedToParse, rfl⟩, rfl⟩

/-- Claim C7: while the stored entry is fresh at every call instant,
repeated get calls all return the stored content, leave the entry
untouched, and perform zero fetches, whatever the fetch capability
would have returned. -/
theorem claim_C7_fresh_idempotent {C : Type} (parse : List Nat → Option C)
    (fetch : Except Unit Resource) (e : CacheEntry C)
    (times : List (Nat × Nat × Nat))
    (hfresh : ∀ t ∈ times, t.1 < e.expires_at) :
    cacheGetMany parse fetch times e =
      (times.map fun _ => .ok e.content, e, 0) := by
  induction times with
  | nil => rfl
  | cons t ts ih =>
    obtain ⟨now1, now2, nowU⟩ := t
    have h1 : now1 < e.expires_at := hfresh (now1, now2, nowU) (by simp)
    have hts : ∀ u ∈ ts, u.1 < e.expires_at := fun u hu => hfresh u (by simp [hu])
    have hb : is_expired e now1 = false := by
      simp only [is_expired, decide_eq_false_iff_not]
      omega
    simp [cacheGetMany, cacheGet, hb, ih hts]

/-- Witness for C7: two fresh calls on the fixture entry return its
content twice with zero fetches. -/
theorem claim_C7_fresh_idempotent_witness :
    cacheGetMany parse7 (.ok res0) [(0, 0, 0), (5, 5, 5)] entry0 =
      ([.ok 42, .ok 42], entry0, 0) := by
  have h := claim_C7_fresh_idempotent parse7 (.ok res0) entry0
    [(0, 0, 0), (5, 5, 5)] (by decide)
  simpa using h

/-- Claim C8: on an expired entry, a fetch failure or a deserialization
failure surfaces as a cache error and leaves the entry exactly as it
was, while only a fully successful fetch and parse replaces the entry,
in one step, with the completely built new one. -/
theorem claim_C8_refresh_atomic {C : Type} (parse : List Nat → Option C)
    (fetch : Except Unit Resource) (e : CacheEntry C) (now1 now2 nowU : Nat)
    (hexp1 : e.expires_at ≤ now1) (hexp2 : e.expires_at ≤ now2) :
    (fetch = .error () →
      cacheGet parse fetch e now1 now2 nowU = (.error .cacheError, e, 1)) ∧
    (∀ res, fetch = .ok res → parse res.data = none →
      cacheGet parse fetch e now1 now2 nowU = (.error .cacheError, e, 1)) ∧
    (∀ res c, fetch = .ok res → parse res.data = some c →
      cacheGet parse fetch e now1 now2 nowU =
        (.ok c, ⟨nowU + res.max_age, c⟩, 1)) := by
  have hb1 : is_expired e now1 = true := by
    simp only [is_expired, decide_eq_true_eq]
    omega
  have hb2 : is_expired e now2 = true := by
    simp only [is_expired, decide_eq_true_eq]
    omega
  refine ⟨?_, ?_, ?_⟩
  · intro hf
    simp [cacheGet, hb1, hb2, hf]
  · intro res hf hp
    simp [cacheGet, hb1, hb2, hf, hp]
  · intro res c hf hp
    simp [cacheGet, hb1, hb2, hf, hp]

/-- Witness for C8: a failing fetch on an expired entry errors and
leaves the entry unchanged, while a successful one replaces it. -/
theorem claim_C8_refresh_atomic_witness :
    cacheGet parse7 (.error ()) sfE0 0 0 3 = (.error .cacheError, sfE0, 1) ∧
    cacheGet parse7 (.ok res0) sfE0 0 0 3 = (.ok 7, ⟨8, 7⟩, 1) := by
  constructor
  · exact (claim_C8_refresh_atomic parse7 (.error ()) sfE0 0 0 3
      (by decide) (by decide)).1 rfl
  · exact (claim_C8_refresh_atomic parse7 (.ok res0) sfE0 0 0 3
      (by decide) (by decide)).2.2 res0 7 rfl rfl

/-- Bound extracted from an indexing hit. -/
theorem lt_length_of_some {α : Type} {l : List α} {i : Nat} {a : α}
    (h : l[i]? = some a) : i < l.length := by
  by_contra hlt
  rw [List.getElem?_eq_none (by omega)] at h
  exact absurd h (by simp)

/-- A successful decode needs at least three dot segments: the third
segment is requested from the iterator before the token is built. -/
theorem from_encoded_ok_segments {s : List Nat} {t : JWToken}
    (h : from_encoded s = .ok t) : 3 ≤ (splitOnDot s).length := by
  unfold from_encoded at h
  repeat' split at h
  any_goals cases h
  exact lt_length_of_some (by assumption)

/-- Claim C3 as amended: an input with fewer than three dot-separated
segments always fails to decode with some decode error (and hence never
yields a token); inputs with three or more segments can succeed, since
segments beyond the third are ignored. -/
theorem claim_C3_short_input_fails (s : List Nat)
    (h : (splitOnDot s).length < 3) :
    ∃ e, from_encoded s = .error e := by
  cases hfe : from_encoded s with
  | error e => exact ⟨e, rfl⟩
  | ok t => exact absurd (from_encoded_ok_segments hfe) (by omega)

/-- Witness for C3: the two-segment input abc.def fails to decode. -/
theorem claim_C3_short_input_fails_witness :
    (splitOnDot tok2).length < 3 ∧ ∃ e, from_encoded tok2 = .error e :=
  ⟨by decide, claim_C3_short_input_fails tok2 (by decide)⟩

/-- Counterexample to C3 as written: a four-segment string whose first
three segments are well formed decodes successfully, because the
iterator is never asked for a fourth segment. -/
theorem claim_C3_short_input_fails_cex :
    (splitOnDot tok4).length = 4 ∧ (from_encoded tok4).isOk = true := by
  constructor <;> decide

/-- The fuel argument of the digit writer is irrelevant once
sufficient. -/
theorem natToDecGo_congr (n : Nat) : ∀ f1 f2, n ≤ f1 → n ≤ f2 →
    natToDecGo f1 n = natToDecGo f2 n := by
  induction n using Nat.strong_induction_on with
  | _ n ih =>
    intro f1 f2 h1 h2
    match f1, f2 with
    | 0, 0 => rfl
    | 0, g + 1 =>
      have hn : n = 0 := by omega
      subst hn
      simp [natToDecGo]
    | g + 1, 0 =>
      have hn : n = 0 := by omega
      subst hn
      simp [natToDecGo]
    | g1 + 1, g2 + 1 =>
      by_cases hn : n < 10
      · simp [natToDecGo, hn]
      · simp only [natToDecGo, if_neg hn]
        rw [ih (n / 10) (by omega) g1 g2 (by omega) (by omega)]

/-- Recurrence satisfied by the digit writer. -/
theorem natToDec_eq (n : Nat) :
    natToDec n = if n < 10 then [48 + n] else natToDec (n / 10) ++ [48 + n % 10] := by
  unfold natToDec
  by_cases hn : n < 10
  · rw [if_pos hn]
    cases n with
    | zero => rfl
    | succ m => simp [natToDecGo, hn]
  · rw [if_neg hn]
    cases n with
    | zero => omega
    | succ m =>
      simp only [natToDecGo, if_neg hn]
      rw [natToDecGo_congr ((m + 1) / 10) m ((m + 1) / 10) (by omega) (by omega)]

/-- Every byte the digit writer emits is a decimal digit byte. -/
theorem natToDec_digits (n : Nat) : ∀ b ∈ natToDec n, 48 ≤ b ∧ b ≤ 57 := by
  induction n using Nat.strong_induction_on with
  | _ n ih =>
    rw [natToDec_eq]
    by_cases hn : n < 10
    · rw [if_pos hn]
      intro b hb
      simp at hb
      omega
    · rw [if_neg hn]
      intro b hb
      rw [List.mem_append] at hb
      rcases hb with hb | hb
      · exact ih (n / 10) (by omega) b hb
      · simp at hb
        omega

/-- The digit writer never returns the empty list. -/
theorem natToDec_ne_nil (n : Nat) : natToDec n ≠ [] := by
  rw [natToDec_eq]
  by_cases hn : n < 10 <;> simp [hn]

/-- Folding one more digit byte. -/
theorem decVal_append (ds : List Nat) (d : Nat) :
    decVal (ds ++ [d]) = decVal ds * 10 + (d - 48) := by
  unfold decVal
  rw [List.foldl_append]
  rfl

/-- The digit value of the written digits is the number. -/
theorem decVal_natToDec (n : Nat) : decVal (natToDec n) = n := by
  induction n using Nat.strong_induction_on with
  | _ n ih =>
    rw [natToDec_eq]
    by_cases hn : n < 10
    · rw [if_pos hn]
      simp [decVal]
    · rw [if_neg hn, decVal_append, ih (n / 10) (by omega)]
      omega

/-- A run of satisfying bytes followed by a non-satisfying head splits
cleanly under takeWhile and dropWhile. -/
theorem takeWhile_append_run {p : Nat → Bool} : ∀ (ds r : List Nat),
    (∀ b ∈ ds, p b = true) → (∀ b, r.head? = some b → p b = false) →
    (ds ++ r).takeWhile p = ds ∧ (ds ++ r).dropWhile p = r := by
  intro ds
  induction ds with
  | nil =>
    intro r _ hr
    cases r with
    | nil => simp
    | cons b r2 =>
      have hb := hr b rfl
      simp [List.takeWhile_cons, List.dropWhile_cons, hb]
  | cons d ds ih =>
    intro r hall hr
    have hd : p d = true := hall d (by simp)
    have hds : ∀ b ∈ ds, p b = true := fun b hb => hall b (by simp [hb])
    obtain ⟨h1, h2⟩ := ih r hds hr
    simp [List.takeWhile_cons, List.dropWhile_cons, hd, h1, h2]

/-- Reading back the written digits of a natural number. -/
theorem parseDec_natToDec (n : Nat) (r : List Nat)
    (hr : ∀ b, r.head? = some b → isDig b = false) :
    parseDec (natToDec n ++ r) = some (n, r) := by
  obtain ⟨htake, hdrop⟩ := takeWhile_append_run (natToDec n) r
    (fun b hb => by
      have := natToDec_digits n b hb
      simp [isDig]
      omega) hr
  unfold parseDec
  rw [htake, hdrop, if_neg (natToDec_ne_nil n), decVal_natToDec]

/-- Reading back the written digits of an integer. -/
theorem parseInt_intToDec (i : Int) (r : List Nat)
    (hr : ∀ b, r.head? = some b → isDig b = false) :
    parseInt (intToDec i ++ r) = some (i, r) := by
  unfold intToDec parseInt
  by_cases hi : i < 0
  · rw [if_pos hi]
    simp only [List.cons_append, List.head?_cons, List.tail_cons, if_pos rfl]
    rw [parseDec_natToDec _ r hr]
    simp
    omega
  · rw [if_neg hi]
    obtain ⟨d, ds, hd⟩ := List.exists_cons_of_ne_nil (natToDec_ne_nil i.toNat)
    have hdig : 48 ≤ d ∧ d ≤ 57 := natToDec_digits i.toNat d (by rw [hd]; simp)
    have hne : ((natToDec i.toNat ++ r).head? = some 45) = False := by
      rw [hd]
      simp
      omega
    rw [if_neg (by rw [hne]; exact id)]
    rw [parseDec_natToDec _ r hr]
    simp
    omega

/-- Stripping an exact literal succeeds and leaves the rest. -/
theorem stripPre_append (p r : List Nat) : stripPre p (p ++ r) = some r := by
  induction p with
  | nil => rfl
  | cons a p ih => simp [stripPre, ih]

/-- Hex digits written by the escape table read back. -/
theorem unhex_hexDig : ∀ d : Nat, d < 16 → unhex (hexDig d) = some d := by
  decide

set_option maxHeartbeats 1600000 in
/-- Reading a canonical escaped string body up to its closing quote
recovers the original bytes, for any sufficient fuel. -/
theorem unescGo_escape (s : List Nat) : ∀ (r : List Nat) (fuel : Nat),
    (escBytes s ++ 34 :: r).length ≤ fuel →
    unescGo fuel (escBytes s ++ 34 :: r) = some (s, r) := by
  induction s with
  | nil =>
    intro r fuel hlen
    simp only [escBytes, List.map_nil, List.flatten_nil, List.nil_append,
      List.length_cons] at hlen ⊢
    obtain ⟨g, rfl⟩ : ∃ g, fuel = g + 1 := ⟨fuel - 1, by omega⟩
    simp [unescGo]
  | cons b tl ih =>
    intro r fuel hlen
    have hsplit : escBytes (b :: tl) = escapeByte b ++ escBytes tl := by
      simp [escBytes]
    rw [hsplit, List.append_assoc] at hlen ⊢
    have hlen2 : (escapeByte b).length + (escBytes tl ++ 34 :: r).length ≤ fuel := by
      simpa [List.length_append] using hlen
    have hpos : 1 ≤ (escapeByte b).length := by
      unfold escapeByte
      split_ifs <;> simp
    obtain ⟨g, rfl⟩ : ∃ g, fuel = g + 1 := ⟨fuel - 1, by omega⟩
    have hrec : (escBytes tl ++ 34 :: r).length ≤ g := by omega
    unfold escapeByte at hlen2 ⊢
    split_ifs at hlen2 ⊢ with h34 h92 h8 h9 h10 h12 h13 hc
    · subst h34
      simp only [List.cons_append, List.nil_append]
      simp [unescGo, escHead, ih r g hrec]
    · subst h92
      simp only [List.cons_append, List.nil_append]
      simp [unescGo, escHead, ih r g hrec]
    · subst h8
      simp only [List.cons_append, List.nil_append]
      simp [unescGo, escHead, ih r g hrec]
    · subst h9
      simp only [List.cons_append, List.nil_append]
      simp [unescGo, escHead, ih r g hrec]
    · subst h10
      simp only [List.cons_append, List.nil_append]
      simp [unescGo, escHead, ih r g hrec]
    · subst h12
      simp only [List.cons_append, List.nil_append]
      simp [unescGo, escHead, ih r g hrec]
    · subst h13
      simp only [List.cons_append, List.nil_append]
      simp [unescGo, escHead, ih r g hrec]
    · have h1 : unhex (hexDig (b / 16)) = some (b / 16) := unhex_hexDig _ (by omega)
      have h2 : unhex (hexDig (b % 16)) = some (b % 16) := unhex_hexDig _ (by omega)
      have hb : b / 16 * 16 + b % 16 = b := by omega
      simp only [List.cons_append, List.nil_append]
      simp [unescGo, escHead, h1, h2, hb, hc, ih r g hrec]
    · simp only [List.cons_append, List.nil_append]
      simp [unescGo, escHead, h34, h92, hc, ih r g hrec]

/-- Reading a canonical escaped string body recovers the original
bytes. -/
theorem unescape_escape (s : List Nat) : ∀ r,
    unescapeStr (escBytes s ++ 34 :: r) = some (s, r) := by
  intro r
  exact unescGo_escape s r _ le_rfl

/-- Reading back a canonical JSON string token. -/
theorem parseJStr_jStr (s r : List Nat) : parseJStr (jStr s ++ r) = some (s, r) := by
  have : jStr s ++ r = 34 :: (escBytes s ++ 34 :: r) := by
    simp [jStr]
  rw [this]
  simp [parseJStr, unescape_escape]

/-- Reading back the canonical algorithm names. -/
theorem parseAlg_algName (a : JWTAlgorithm) (r : List Nat) :
    parseAlg (algName a ++ 34 :: r) = some (a, r) := by
  cases a <;> simp [parseAlg, allAlgs, tryAlgs, algName, stripPre]

/-- Reading back the null key id. -/
theorem parseKid_none (r : List Nat) :
    parseKid ([110, 117, 108, 108] ++ r) = some (none, r) := by
  simp [parseKid, stripPre]

/-- Reading back a string key id. -/
theorem parseKid_some (s r : List Nat) :
    parseKid (jStr s ++ r) = some (some s, r) := by
  have hj : jStr s ++ r = 34 :: (escBytes s ++ 34 :: r) := by
    simp [jStr]
  rw [hj]
  simp [parseKid, stripPre, unescape_escape]

set_option maxHeartbeats 1600000 in
/-- The canonical header serialization parses back to the header. -/
theorem parseHeader_serializeHeader (h : TokenHeader) :
    parseHeader (serializeHeader h) = some h := by
  obtain ⟨alg, kid⟩ := h
  cases kid with
  | none =>
    simp [parseHeader, serializeHeader, stripPre, parseAlg_algName, parseKid]
  | some s =>
    simp [parseHeader, serializeHeader, stripPre, parseAlg_algName, parseKid_some]

set_option maxHeartbeats 3200000 in
/-- The canonical claims serialization parses back to the claims. -/
theorem parseClaims_serializeClaims (c : TokenClaims) :
    parseClaims (serializeClaims c) = some c := by
  obtain ⟨exp, iat, aud, iss, sub, auth_time⟩ := c
  have hint : ∀ (i : Int) (x : List Nat) (b0 : Nat), ¬ (48 ≤ b0 ∧ b0 ≤ 57) →
      parseInt (intToDec i ++ (b0 :: x)) = some (i, b0 :: x) := by
    intro i x b0 hb0
    refine parseInt_intToDec i (b0 :: x) ?_
    intro b hb
    simp at hb
    subst hb
    simp [isDig]
    omega
  simp [parseClaims, serializeClaims, stripPre, parseJStr_jStr,
    hint _ _ 44 (by omega), hint _ _ 125 (by omega)]

/-- Escaping a genuine byte emits genuine bytes. -/
theorem escapeByte_bound (b : Nat) (hb : b < 256) : ∀ x ∈ escapeByte b, x < 256 := by
  intro x hx
  unfold escapeByte hexDig at hx
  split_ifs at hx <;> simp at hx <;> omega

/-- Escaping a genuine byte string emits genuine bytes. -/
theorem escBytes_bound (s : List Nat) (hs : ∀ b ∈ s, b < 256) :
    ∀ x ∈ escBytes s, x < 256 := by
  intro x hx
  simp only [escBytes, List.mem_flatten, List.mem_map] at hx
  obtain ⟨l, ⟨b, hb, rfl⟩, hxl⟩ := hx
  exact escapeByte_bound b (hs b hb) x hxl

/-- A canonical JSON string token over genuine bytes is genuine. -/
theorem jStr_bound (s : List Nat) (hs : ∀ b ∈ s, b < 256) :
    ∀ x ∈ jStr s, x < 256 := by
  intro x hx
  simp only [jStr, List.cons_append, List.mem_cons, List.mem_append,
    List.not_mem_nil, or_false] at hx
  rcases hx with rfl | hx | rfl
  · omega
  · exact escBytes_bound s hs x hx
  · omega

/-- Digit bytes are genuine. -/
theorem natToDec_bound (n : Nat) : ∀ x ∈ natToDec n, x < 256 := by
  intro x hx
  have := natToDec_digits n x hx
  omega

/-- Integer digit bytes are genuine. -/
theorem intToDec_bound (i : Int) : ∀ x ∈ intToDec i, x < 256 := by
  intro x hx
  unfold intToDec at hx
  split_ifs at hx
  · rcases List.mem_cons.mp hx with rfl | hx
    · omega
    · exact natToDec_bound _ x hx
  · exact natToDec_bound _ x hx

/-- Algorithm names are genuine bytes. -/
theorem algName_bound (a : JWTAlgorithm) : ∀ x ∈ algName a, x < 256 := by
  cases a <;> decide

/-- The canonical header serialization consists of genuine bytes when
the key id does. -/
theorem serializeHeader_bound (h : TokenHeader)
    (hk : ∀ s, h.kid = some s → ∀ b ∈ s, b < 256) :
    ∀ x ∈ serializeHeader h, x < 256 := by
  cases hh : h.kid with
  | none =>
    unfold serializeHeader
    rw [hh]
    simp only [List.forall_mem_append]
    repeat' constructor
    all_goals first
      | decide
      | exact algName_bound _
  | some s =>
    unfold serializeHeader
    rw [hh]
    simp only [List.forall_mem_append]
    repeat' constructor
    all_goals first
      | decide
      | exact algName_bound _
      | exact jStr_bound s (hk s hh)

/-- The canonical claims serialization consists of genuine bytes when
the three strings do. -/
theorem serializeClaims_bound (c : TokenClaims)
    (ha : ∀ b ∈ c.aud, b < 256) (hi : ∀ b ∈ c.iss, b < 256)
    (hs : ∀ b ∈ c.sub, b < 256) :
    ∀ x ∈ serializeClaims c, x < 256 := by
  unfold serializeClaims
  simp only [List.forall_mem_append]
  repeat' constructor
  all_goals first
    | decide
    | exact intToDec_bound _
    | exact jStr_bound _ ha
    | exact jStr_bound _ hi
    | exact jStr_bound _ hs

/-- Claim C6 as amended: for every header, claims and signer whose
output is the base64url encoding of some signature bytes (as the
production RSA signer produces), decoding the encoded token succeeds and
recovers the header and the claims byte-identically, yields the raw
signature bytes, and its signing input is exactly the originally encoded
header segment, a dot, and the originally encoded payload segment. -/
theorem claim_C6_roundtrip (h : TokenHeader) (c : TokenClaims)
    (signer : List Nat → List Nat → Except JWTError (List Nat))
    (sig tok : List Nat)
    (hh : ∀ s, h.kid = some s → ∀ b ∈ s, b < 256)
    (ha : ∀ b ∈ c.aud, b < 256) (hi : ∀ b ∈ c.iss, b < 256)
    (hs : ∀ b ∈ c.sub, b < 256) (hsg : ∀ b ∈ sig, b < 256)
    (hsign : signer (b64Encode (serializeHeader h)) (b64Encode (serializeClaims c)) =
      .ok (b64Encode sig))
    (htok : encode_jwt h c signer = .ok tok) :
    from_encoded tok = .ok
      { header := h
        critical_claims := c
        all_claims := allClaimsOf c
        payload := b64Encode (serializeHeader h) ++ 46 :: b64Encode (serializeClaims c)
        signature := sig } := by
  unfold encode_jwt at htok
  simp only [hsign, Except.ok.injEq] at htok
  subst htok
  have hbh : ∀ x ∈ serializeHeader h, x < 256 := serializeHeader_bound h hh
  have hbc : ∀ x ∈ serializeClaims c, x < 256 := serializeClaims_bound c ha hi hs
  have heh := b64Encode_mem _ hbh
  have hep := b64Encode_mem _ hbc
  have hes := b64Encode_mem _ hsg
  have hsplit : splitOnDot (b64Encode (serializeHeader h) ++
      46 :: b64Encode (serializeClaims c) ++ 46 :: b64Encode sig) =
      [b64Encode (serializeHeader h), b64Encode (serializeClaims c), b64Encode sig] := by
    rw [show (b64Encode (serializeHeader h) ++
        46 :: b64Encode (serializeClaims c) ++ 46 :: b64Encode sig) =
      (b64Encode (serializeHeader h) ++
        (46 :: (b64Encode (serializeClaims c) ++ 46 :: b64Encode sig))) by simp]
    rw [splitOnDot_append _ _ fun b hb => (heh b hb).2]
    rw [splitOnDot_append _ _ fun b hb => (hep b hb).2]
    rw [splitOnDot_single _ fun b hb => (hes b hb).2]
  have hd1 : b64Decode (b64Encode (serializeHeader h)) = some (serializeHeader h) :=
    b64_roundtrip _ hbh
  have hd2 : b64Decode (b64Encode (serializeClaims c)) = some (serializeClaims c) :=
    b64_roundtrip _ hbc
  have hd3 : b64Decode (b64Encode sig) = some sig := b64_roundtrip _ hsg
  unfold from_encoded
  rw [hsplit]
  simp [hd1, hd2, hd3, parseHeader_serializeHeader, parseClaims_serializeClaims]

/-- Witness for C6 at the concrete fixtures: encoding with the well
behaved signer and decoding recovers the fixtures byte-identically. -/
theorem claim_C6_roundtrip_witness :
    from_encoded (ehSeg ++ 46 :: epSeg ++ 46 :: b64Encode [1, 2, 3]) = .ok
      { header := hdr0
        critical_claims := clm0
        all_claims := allClaimsOf clm0
        payload := ehSeg ++ 46 :: epSeg
        signature := [1, 2, 3] } :=
  claim_C6_roundtrip hdr0 clm0 okSigner [1, 2, 3]
    (ehSeg ++ 46 :: epSeg ++ 46 :: b64Encode [1, 2, 3])
    (by decide) (by decide) (by decide) (by decide) (by decide) rfl rfl

/-- Counterexample to C6 as written: a signer whose output is not valid
base64url text makes the encoded token fail to decode, so the round trip
does not hold for every signer. -/
theorem claim_C6_roundtrip_cex :
    encode_jwt hdr0 clm0 badSigner = .ok (ehSeg ++ 46 :: epSeg ++ 46 :: [59]) ∧
    from_encoded (ehSeg ++ 46 :: epSeg ++ 46 :: [59]) = .error .FailedToParse := by
  constructor
  · rfl
  · rfl

/-- A task location in the set membership of a race invariant. -/
theorem sf_mem_set {C : Type} {tasks : List (TaskState C)} {i : Nat}
    {a s : TaskState C} (hs : s ∈ tasks.set i a) : s ∈ tasks ∨ s = a :=
  List.mem_or_eq_of_mem_set hs

/-- Pointwise facts survive updating one task. -/
theorem forall_mem_set {C : Type} {tasks : List (TaskState C)} {i : Nat}
    {a : TaskState C} {Q : TaskState C → Prop}
    (hall : ∀ s ∈ tasks, Q s) (ha : Q a) : ∀ s ∈ tasks.set i a, Q s := by
  intro s hs
  rcases sf_mem_set hs with hs | rfl
  · exact hall s hs
  · exact ha

/-- If nobody but possibly position i owns the mutex, and position i is
overwritten with a non-owner location, nobody owns it. -/
theorem forall_not_owns_set {C : Type} {tasks : List (TaskState C)} {i : Nat}
    {a : TaskState C} (ha : ¬ ownsMutex a)
    (hothers : ∀ j s2, j ≠ i → tasks[j]? = some s2 → ¬ ownsMutex s2) :
    ∀ s ∈ tasks.set i a, ¬ ownsMutex s := by
  intro s hs
  rcases List.mem_iff_getElem?.mp hs with ⟨j, hj⟩
  by_cases hji : j = i
  · subst hji
    have hlt : j < tasks.length := by
      have := lt_length_of_some hj
      simpa using this
    rw [List.getElem?_set_eq hlt] at hj
    injection hj with hj
    subst hj
    exact ha
  · rw [List.getElem?_set_ne (by omega)] at hj
    exact hothers j s hji hj

/-- Updating position i does not change what other positions hold. -/
theorem others_not_owns_set {C : Type} {tasks : List (TaskState C)} {i : Nat}
    {a : TaskState C}
    (hothers : ∀ j s2, j ≠ i → tasks[j]? = some s2 → ¬ ownsMutex s2) :
    ∀ j s2, j ≠ i → (tasks.set i a)[j]? = some s2 → ¬ ownsMutex s2 := by
  intro j s2 hji hjs
  rw [List.getElem?_set_ne (by omega)] at hjs
  exact hothers j s2 hji hjs

/-- Mutex discipline for a configuration with a free mutex. -/
theorem mutexOk_none {C : Type} {tasks : List (TaskState C)}
    (hall : ∀ s ∈ tasks, ¬ ownsMutex s) (cache : CacheEntry C) (f : Nat) :
    MutexOk (⟨cache, none, f, tasks⟩ : SFConfig C) := by
  constructor
  · intro _ s hs
    exact hall s hs
  · intro k hk
    cases hk

/-- Mutex discipline for a configuration whose recorded owner is the
unique owner location. -/
theorem mutexOk_owner {C : Type} {tasks : List (TaskState C)} {i : Nat}
    {mu : Option Nat} (hmu : mu = some i) {w : TaskState C}
    (ht : tasks[i]? = some w) (hs0 : ownsMutex w)
    (huniq : ∀ j s2, j ≠ i → tasks[j]? = some s2 → ¬ ownsMutex s2)
    (cache : CacheEntry C) (f : Nat) :
    MutexOk (⟨cache, mu, f, tasks⟩ : SFConfig C) := by
  subst hmu
  constructor
  · intro h
    cases h
  · intro k hk
    injection hk with hk
    subst hk
    exact ⟨⟨w, ht, hs0⟩, huniq⟩

/-- In a configuration respecting the mutex discipline, a task at an
owner location is the recorded owner, and every other task is at a
non-owner location. -/
theorem owner_unique {C : Type} {cfg : SFConfig C} (hmut : MutexOk cfg) {i : Nat}
    {s : TaskState C} (ht : cfg.tasks[i]? = some s) (ho : ownsMutex s) :
    cfg.mutexBy = some i ∧
    ∀ j s2, j ≠ i → cfg.tasks[j]? = some s2 → ¬ ownsMutex s2 := by
  obtain ⟨hmut0, hmut1⟩ := hmut
  cases hmb : cfg.mutexBy with
  | none => exact absurd ho (hmut0 hmb _ (List.getElem?_mem ht))
  | some k =>
    obtain ⟨⟨s3, hks, howns3⟩, huniq⟩ := hmut1 k hmb
    by_cases hik : i = k
    · subst hik
      exact ⟨rfl, fun j s2 hji hjs => huniq j s2 hji hjs⟩
    · exact absurd ho (huniq i s (by omega) ht)

/-- Mutex discipline survives overwriting a non-owner task with a
non-owner location, with the mutex record unchanged. -/
theorem mutexOk_set_nonowner {C : Type} {cfg : SFConfig C} (hmut : MutexOk cfg)
    {i : Nat} {s0 a : TaskState C} (ht : cfg.tasks[i]? = some s0)
    (hs0 : ¬ ownsMutex s0) (ha : ¬ ownsMutex a) :
    MutexOk { cfg with tasks := cfg.tasks.set i a } := by
  obtain ⟨hmut0, hmut1⟩ := hmut
  constructor
  · intro hmn
    exact forall_not_owns_set ha fun j s2 _ hjs =>
      hmut0 hmn s2 (List.getElem?_mem hjs)
  · intro k hk
    obtain ⟨⟨s, hks, howns⟩, huniq⟩ := hmut1 k hk
    have hki : k ≠ i := by
      intro hkeq
      subst hkeq
      rw [ht] at hks
      injection hks with hks
      exact hs0 (by rw [hks]; exact howns)
    refine ⟨⟨s, ?_, howns⟩, ?_⟩
    · rw [List.getElem?_set_ne (by omega)]
      exact hks
    · intro j s2 hjk hjs
      by_cases hji : j = i
      · subst hji
        have hlt : j < cfg.tasks.length := lt_length_of_some ht
        rw [List.getElem?_set_eq hlt] at hjs
        injection hjs with hjs
        subst hjs
        exact ha
      · rw [List.getElem?_set_ne (by omega)] at hjs
        exact huniq j s2 hjk hjs

/-- The invariant holds in the initial race configuration. -/
theorem sfInv_init {C : Type} (P : SFParams C) (res : Resource) (c : C)
    (e0 : CacheEntry C) (n : Nat) (he : e0.expires_at ≤ P.now) :
    SFInv P res c e0 n (sfInit e0 n) := by
  refine ⟨by simp [sfInit], ⟨?_, ?_⟩, .inl ⟨rfl, rfl, ?_⟩⟩
  · intro _ s hs
    rw [List.eq_of_mem_replicate hs]
    simp [ownsMutex]
  · intro i h
    simp [sfInit] at h
  · intro s hs
    exact .inl (List.eq_of_mem_replicate hs)

/-- One step of the race preserves the invariant, when the fetch
environment succeeds with a positive lifetime and the original entry is
expired at the race instant. -/
theorem sfInv_step {C : Type} {P : SFParams C} {res : Resource} {c : C}
    {e0 : CacheEntry C} {n : Nat}
    (hfr : P.fetchR = .ok res) (hp : P.parse res.data = some c)
    (hma : 0 < res.max_age) (he : e0.expires_at ≤ P.now)
    {cfg cfg2 : SFConfig C} (hstep : SFStep P cfg cfg2)
    (hinv : SFInv P res c e0 n cfg) : SFInv P res c e0 n cfg2 := by
  obtain ⟨hlen, hmut, hphase⟩ := hinv
  cases hstep with
  | snapFresh i ht hf =>
    rcases hphase with ⟨hc, hf0, htasks⟩ | ⟨hc, hf1, htasks⟩
    · exfalso
      rw [hc] at hf
      simp [is_expired] at hf
      omega
    · refine ⟨by simp [hlen], ?_, .inr ⟨hc, hf1, forall_mem_set htasks ?_⟩⟩
      · exact mutexOk_set_nonowner hmut ht (by simp [ownsMutex]) (by simp [ownsMutex])
      · rw [hc]
        exact .inr (.inr (.inr rfl))
  | snapExpired i ht he2 =>
    rcases hphase with ⟨hc, hf0, htasks⟩ | ⟨hc, hf1, htasks⟩
    · refine ⟨by simp [hlen], ?_, .inl ⟨hc, hf0, forall_mem_set htasks (.inr (.inl rfl))⟩⟩
      exact mutexOk_set_nonowner hmut ht (by simp [ownsMutex]) (by simp [ownsMutex])
    · exfalso
      rw [hc] at he2
      simp [is_expired] at he2
      omega
  | acquire i ht hmn =>
    have hilt : i < cfg.tasks.length := lt_length_of_some ht
    have hnoown : ∀ s ∈ cfg.tasks, ¬ ownsMutex s := hmut.1 hmn
    refine ⟨by simp [hlen], ?_, ?_⟩
    · refine mutexOk_owner rfl (w := .holding) ?_ (by simp [ownsMutex]) ?_ _ _
      · rw [List.getElem?_set_eq hilt]
      · intro j s2 hji hjs
        rw [List.getElem?_set_ne (by omega)] at hjs
        exact hnoown s2 (List.getElem?_mem hjs)
    · rcases hphase with ⟨hc, hf0, htasks⟩ | ⟨hc, hf1, htasks⟩
      · exact .inl ⟨hc, hf0, forall_mem_set htasks (.inr (.inr (.inl rfl)))⟩
      · exact .inr ⟨hc, hf1, forall_mem_set htasks (.inr (.inr (.inl rfl)))⟩
  | recheckFresh i ht hf =>
    rcases hphase with ⟨hc, hf0, htasks⟩ | ⟨hc, hf1, htasks⟩
    · exfalso
      rw [hc] at hf
      simp [is_expired] at hf
      omega
    · obtain ⟨hmb, huniq⟩ := owner_unique hmut ht (by simp [ownsMutex])
      refine ⟨by simp [hlen], ?_, .inr ⟨hc, hf1, forall_mem_set htasks ?_⟩⟩
      · exact mutexOk_none (forall_not_owns_set (by simp [ownsMutex]) huniq) _ _
      · rw [hc]
        exact .inr (.inr (.inr rfl))
  | recheckExpired i ht he2 =>
    have hilt : i < cfg.tasks.length := lt_length_of_some ht
    obtain ⟨hmb, huniq⟩ := owner_unique hmut ht (by simp [ownsMutex])
    rcases hphase with ⟨hc, hf0, htasks⟩ | ⟨hc, hf1, htasks⟩
    · refine ⟨by simp [hlen], ?_,
        .inl ⟨hc, hf0, forall_mem_set htasks (.inr (.inr (.inr rfl)))⟩⟩
      refine mutexOk_owner hmb (w := .fetching) ?_ (by simp [ownsMutex])
        (others_not_owns_set huniq) _ _
      rw [List.getElem?_set_eq hilt]
    · exfalso
      rw [hc] at he2
      simp [is_expired] at he2
      omega
  | fetchOk i res2 c2 ht hr2 hp2 =>
    have hilt : i < cfg.tasks.length := lt_length_of_some ht
    rw [hfr] at hr2
    injection hr2 with hr2
    subst hr2
    rw [hp] at hp2
    injection hp2 with hp2
    subst hp2
    obtain ⟨hmb, huniq⟩ := owner_unique hmut ht (by simp [ownsMutex])
    rcases hphase with ⟨hc, hf0, htasks⟩ | ⟨hc, hf1, htasks⟩
    · refine ⟨by simp [hlen], ?_, .inr ⟨rfl, by rw [hf0], ?_⟩⟩
      · exact mutexOk_none (forall_not_owns_set (by simp [ownsMutex]) huniq) _ _
      · intro s hs
        rcases List.mem_iff_getElem?.mp hs with ⟨j, hj⟩
        by_cases hji : j = i
        · subst hji
          rw [List.getElem?_set_eq hilt] at hj
          injection hj with hj
          subst hj
          exact .inr (.inr (.inr rfl))
        · rw [List.getElem?_set_ne (by omega)] at hj
          have hno := huniq j s (by omega) hj
          rcases htasks s (List.getElem?_mem hj) with rfl | rfl | rfl | rfl
          · exact .inl rfl
          · exact .inr (.inl rfl)
          · exact absurd (by simp [ownsMutex]) hno
          · exact absurd (by simp [ownsMutex]) hno
    · exfalso
      rcases htasks _ (List.getElem?_mem ht) with h | h | h | h <;> cases h
  | fetchFailNet i ht hr2 =>
    rw [hfr] at hr2
    cases hr2
  | fetchFailData i res2 ht hr2 hp2 =>
    rw [hfr] at hr2
    injection hr2 with hr2
    subst hr2
    rw [hp] at hp2
    cases hp2

/-- A completed race under a successful fetch environment has performed
exactly one fetch, and every task returned the refreshed content. -/
theorem sfInv_terminal {C : Type} {P : SFParams C} {res : Resource} {c : C}
    {e0 : CacheEntry C} {n : Nat} {cfg : SFConfig C}
    (hinv : SFInv P res c e0 n cfg) (hn : 0 < n)
    (hdone : ∀ s ∈ cfg.tasks, taskDone s = true) :
    cfg.fetches = 1 ∧ ∀ s ∈ cfg.tasks, s = .doneOk c := by
  obtain ⟨hlen, -, hphase | hphase⟩ := hinv
  · exfalso
    obtain ⟨-, -, htasks⟩ := hphase
    have hne : cfg.tasks ≠ [] := by
      intro h
      rw [h] at hlen
      simp at hlen
      omega
    obtain ⟨s, hs⟩ := List.exists_mem_of_ne_nil _ hne
    have h1 := htasks s hs
    have h2 := hdone s hs
    rcases h1 with rfl | rfl | rfl | rfl <;> simp [taskDone] at h2
  · obtain ⟨-, hf, htasks⟩ := hphase
    refine ⟨hf, ?_⟩
    intro s hs
    have h2 := hdone s hs
    rcases htasks s hs with rfl | rfl | rfl | rfl <;>
      first
        | rfl
        | simp [taskDone] at h2

/-- Claim C2 as amended: in the interleaving model of HttpCache.get,
when the fetch succeeds, its body parses and its lifetime is positive
(so the refreshed entry is fresh when mutex waiters re-check at the race
instant), every completed race of n tasks against an expired entry has
performed exactly one fetch, and every caller got the refreshed
content. -/
theorem claim_C2_single_flight {C : Type} (P : SFParams C) (res : Resource)
    (c : C) (e0 : CacheEntry C) (n : Nat) (cfg : SFConfig C)
    (hfr : P.fetchR = .ok res) (hp : P.parse res.data = some c)
    (hma : 0 < res.max_age) (he : is_expired e0 P.now = true) (hn : 0 < n)
    (hreach : SFReach P (sfInit e0 n) cfg)
    (hdone : ∀ s ∈ cfg.tasks, taskDone s = true) :
    cfg.fetches = 1 ∧ ∀ s ∈ cfg.tasks, s = .doneOk c := by
  have he2 : e0.expires_at ≤ P.now := by
    simpa [is_expired] using he
  have hinv : SFInv P res c e0 n cfg := by
    clear hdone
    induction hreach with
    | refl => exact sfInv_init P res c e0 n he2
    | tail hsteps hstep ih => exact sfInv_step hfr hp hma he2 hstep ih
  exact sfInv_terminal hinv hn hdone

/-- An explicit complete one-task race under the successful fetch
environment. -/
theorem sfReach_success :
    SFReach sfP1 (sfInit sfE0 1) ⟨⟨5, 7⟩, none, 1, [.doneOk 7]⟩ :=
  .head (.snapExpired _ 0 rfl (by decide))
    (.head (.acquire _ 0 rfl rfl)
      (.head (.recheckExpired _ 0 rfl (by decide))
        (.head (.fetchOk _ 0 res0 7 rfl rfl rfl) .refl)))

/-- Witness for C2: the concrete completed one-task race performed
exactly one fetch and returned the refreshed content. -/
theorem claim_C2_single_flight_witness :
    (⟨⟨5, 7⟩, none, 1, [.doneOk 7]⟩ : SFConfig Nat).fetches = 1 ∧
    ∀ s ∈ (⟨⟨5, 7⟩, none, 1, [.doneOk 7]⟩ : SFConfig Nat).tasks, s = .doneOk 7 :=
  claim_C2_single_flight sfP1 res0 7 sfE0 1 _ rfl rfl (by decide) (by decide)
    (by decide) sfReach_success (by decide)

/-- An explicit complete two-task race under the failing fetch
environment. -/
theorem sfReach_fail : SFReach sfP2 (sfInit sfE0 2) sfFinal2 :=
  .head (.snapExpired _ 0 rfl (by decide))
    (.head (.snapExpired _ 1 rfl (by decide))
      (.head (.acquire _ 0 rfl rfl)
        (.head (.recheckExpired _ 0 rfl (by decide))
          (.head (.fetchFailNet _ 0 rfl rfl)
            (.head (.acquire _ 1 rfl rfl)
              (.head (.recheckExpired _ 1 rfl (by decide))
                (.head (.fetchFailNet _ 1 rfl rfl) .refl)))))))

/-- Counterexample to C2 as written: with a failing fetch capability, a
completed two-task race against an expired entry performs two upstream
fetches, because the second caller re-reads the entry under the mutex,
finds it still expired, and fetches again. -/
theorem claim_C2_single_flight_cex :
    SFReach sfP2 (sfInit sfE0 2) sfFinal2 ∧
    is_expired sfE0 sfP2.now = true ∧
    (∀ s ∈ sfFinal2.tasks, taskDone s = true) ∧
    sfFinal2.fetches = 2 :=
  ⟨sfReach_fail, by decide, by decide, rfl⟩

end Fir
